import Mathlib

/-!
Verification of the binoculars SIXS backend (src/binoculars/backends/sixs.py)
against its natural-language specification.

The Python source is shallowly embedded below: pure numerical code is
translated to Lean functions over ℝ (floats are modelled as reals),
integer bookkeeping (job splitting) over ℕ, fallible operations return
Except, and external collaborators (file system, string-to-float parsing,
numpy array loading) are passed in as explicit function parameters.
-/

namespace Binoculars

/-! ## Job splitting (sixs.py, SIXS.generate_jobs, lines 363-386) -/

/-- `backend.Job` (namedtuple-like): scan identifier, first and last point
index (inclusive) and the scheduling weight.  Field names follow the source
(`backend.Job(scan=..., firstpoint=..., lastpoint=..., weight=...)`). -/
structure Job where
  scan : ℕ
  firstpoint : ℕ
  lastpoint : ℕ
  weight : ℕ
deriving DecidableEq

/-- Fuel-bounded worker for `chunk_slicer`.  Emits half-open `(start, stop)`
slices of size `T` while more than `T` points remain, then one final slice
with the remainder.  The fuel argument only serves structural termination;
`fuel = count` is always enough when `1 ≤ T`. -/
def chunkSlicerAux : ℕ → ℕ → ℕ → ℕ → List (ℕ × ℕ)
  | 0, start, count, _ => [(start, start + count)]
  | fuel + 1, start, count, T =>
    if count ≤ T then [(start, start + count)]
    else (start, start + T) :: chunkSlicerAux fuel (start + T) (count - T) T

/-- Modelled from the spec: `util.chunk_slicer` (binoculars/util.py, which is
not under src/) splits `count` points into consecutive slices of size `T`
("emit consecutive jobs of size T each (weight T), until fewer than T points
remain, then emit one final job covering the remainder (weight = remainder
length, 1 ≤ remainder ≤ T)").  Slices are 0-based half-open ranges, as the
caller `generate_jobs` expects Python `slice` objects. -/
def chunk_slicer (count T : ℕ) : List (ℕ × ℕ) :=
  chunkSlicerAux count 0 count T

/-- `SIXS.generate_jobs`, body for a single scan (lines 369-386 of sixs.py).
`start` and `pointcount` are taken from the optional `pr` range override or
from the scan itself, exactly as in the source.  The float comparison
`pointcount > self.config.target_weight * 1.4` is modelled exactly over ℚ:
`pointcount > T * 7/5  ↔  7*T < 5*pointcount`. -/
def generate_jobs (scanno start pointcount T : ℕ) : List Job :=
  if 7 * T < 5 * pointcount then
    (chunk_slicer pointcount T).map fun s =>
      { scan := scanno, firstpoint := start + s.1,
        lastpoint := start + s.2 - 1, weight := s.2 - s.1 }
  else
    [{ scan := scanno, firstpoint := start,
       lastpoint := start + pointcount - 1, weight := pointcount }]

/-! ## Kinematic chain resolution (sixs.py, get_axes, lines 174-212) -/

/-- Error raised by `get_axes` for an unrecognised diffractometer name.
The source raises `NotImplementedError`; the spec calls this failure
`UnsupportedGeometryError`. -/
inductive SixsError where
  | unsupportedGeometry (msg : String)
deriving DecidableEq

/-- `Axes` namedtuple (line 169): resolved sample chain, detector chain, and
the underlying mechanical-stacking graph (modelled by its directed edge
list; the per-node axis vectors of the source are not needed by any claim
settled here). -/
structure Axes where
  sample : List String
  detector : List String
  graph : List (String × String)
deriving DecidableEq

/-- Path resolution on the tiny stacking graphs: depth-first search for the
path from `a` to `b` along directed edges, with fuel for termination.  On
the trees built by `get_axes` this returns exactly the unique path that
`networkx.dijkstra_path` (unit edge weights) returns. -/
def findPath (edges : List (String × String)) : ℕ → String → String → Option (List String)
  | 0, a, b => if a = b then some [a] else none
  | fuel + 1, a, b =>
    if a = b then some [a]
    else edges.findSome? fun e =>
      if e.1 = a then (findPath edges fuel e.2 b).map (fun p => a :: p) else none

/-- Supported diffractometer name (line 52). -/
def ZAXIS : String := "ZAXIS"

/-- Supported diffractometer name (line 53). -/
def SOLEIL_SIXS_MED1_2 : String := "SOLEIL SIXS MED1+2"

/-- `get_axes` (lines 174-212): build the stacking graph for a named
diffractometer and resolve the sample and detector chains; unknown names
fail ("not yet supported diffractometer type:" + name). -/
def get_axes (name : String) : Except SixsError Axes :=
  if name = ZAXIS then
    let edges := [("mu", "omega"), ("mu", "delta"), ("delta", "gamma")]
    Except.ok { sample := (findPath edges 4 "mu" "omega").getD [],
                detector := (findPath edges 4 "mu" "gamma").getD [],
                graph := edges }
  else if name = SOLEIL_SIXS_MED1_2 then
    let edges := [("pitch", "mu"), ("pitch", "gamma"), ("gamma", "delta")]
    Except.ok { sample := (findPath edges 4 "pitch" "mu").getD [],
                detector := (findPath edges 4 "pitch" "delta").getD [],
                graph := edges }
  else
    Except.error (SixsError.unsupportedGeometry
      ("not yet supported diffractometer type:" ++ name))

/-! ## Per-column normalization (sixs.py, normalized, lines 351-354) -/

/-- Column norm: `numpy.linalg.norm(a, 2, axis=0)` specialised to a single
3-vector column of the pixel-geometry array. -/
noncomputable def norm2 (v : Fin 3 → ℝ) : ℝ :=
  Real.sqrt (v 0 ^ 2 + v 1 ^ 2 + v 2 ^ 2)

/-- The guarded denominator: `l2[l2 == 0] = 1` (line 353). -/
noncomputable def normGuard (v : Fin 3 → ℝ) : ℝ :=
  if norm2 v = 0 then 1 else norm2 v

/-- `normalized(a, axis=0)` on one column: divide the column by its (guarded)
norm (line 354). -/
noncomputable def normalizedVec (v : Fin 3 → ℝ) : Fin 3 → ℝ :=
  fun i => v i / normGuard v

/-! ## Projections (sixs.py, lines 55 and 80-151) -/

/-- `PDataFrame` namedtuple (line 55): per-frame projection input.  `ι`
indexes the detector pixels (the source uses a 2-dimensional H×W grid; the
projections act column-wise, so any index type is faithful). -/
structure PDataFrame (ι : Type) where
  pixels : ι → Fin 3 → ℝ
  k : ℝ
  ub : Matrix (Fin 3) (Fin 3) ℝ
  R : Matrix (Fin 3) (Fin 3) ℝ
  P : Matrix (Fin 3) (Fin 3) ℝ

namespace HKLProjection

/-- `HKLProjection.project` (lines 83-98).  Local names follow the source:
`ki`, `RUB_1 = inv(R·UB)`, `RUB_1P = RUB_1·P`, `kf = normalized(pixels)`,
`hkl_f = RUB_1P ⊗ kf`, `hkl_i = RUB_1·ki`, `hkl = hkl_f - hkl_i`, and the
result is `hkl * k`.  The output packs the three returned arrays `(h, k, l)`
as the `Fin 3` coordinate of the result. -/
noncomputable def project {ι : Type} (df : PDataFrame ι) : ι → Fin 3 → ℝ :=
  let ki : Fin 3 → ℝ := ![1, 0, 0]
  let RUB_1 := (df.R * df.ub)⁻¹
  let RUB_1P := RUB_1 * df.P
  let kf : ι → Fin 3 → ℝ := fun p => normalizedVec (df.pixels p)
  let hkl_f : ι → Fin 3 → ℝ := fun p => RUB_1P.mulVec (kf p)
  let hkl_i : Fin 3 → ℝ := RUB_1.mulVec ki
  let hkl : ι → Fin 3 → ℝ := fun p => hkl_f p - hkl_i
  fun p i => hkl p i * df.k

end HKLProjection

/-- Follows the spec's words for claim C1 (refinement comparison only, not
translated from the source): "computes inverse(R·UB), applies it to the
pixel outgoing directions and to the incident direction, subtracts
(momentum transfer), scales by k", where the outgoing direction per pixel
is the shared sub-step `normalize(pixelGeometry, per-column)` and the
incident direction is (1,0,0). -/
noncomputable def hklProjectSpec {ι : Type} (df : PDataFrame ι) : ι → Fin 3 → ℝ :=
  fun p i =>
    df.k * (((df.R * df.ub)⁻¹).mulVec (normalizedVec (df.pixels p))
             - ((df.R * df.ub)⁻¹).mulVec ![1, 0, 0]) i

/-- The spec formula of claim C1 amended as the code forces: the detector
rotation `P` is applied to the normalized pixel directions before
`inverse(R·UB)` (equivalently, `inverse(R·UB)·P` is applied to the
normalized outgoing directions), the incident direction is transformed by
`inverse(R·UB)` alone, then subtract and scale by `k`. -/
noncomputable def hklProjectSpecAmended {ι : Type} (df : PDataFrame ι) : ι → Fin 3 → ℝ :=
  fun p i =>
    df.k * (((df.R * df.ub)⁻¹).mulVec (df.P.mulVec (normalizedVec (df.pixels p)))
             - ((df.R * df.ub)⁻¹).mulVec ![1, 0, 0]) i

/-- Concrete projection input witnessing that the detector rotation matters:
a single pixel at (1,0,0), k = 1, UB = R = I, and P the rotation by 90°
about the z axis. -/
noncomputable def dfC1 : PDataFrame (Fin 1) where
  pixels := fun _ => ![1, 0, 0]
  k := 1
  ub := 1
  R := 1
  P := Matrix.of ![![0, -1, 0], ![1, 0, 0], ![0, 0, 1]]

namespace QxQyQzProjection

/-- First (dead) binding of the substitute UB matrix in
`QxQyQzProjection.project` (lines 121-123): mixed sign convention. -/
noncomputable def UB_first : Matrix (Fin 3) (Fin 3) ℝ :=
  Matrix.of ![![2 * Real.pi, 0, 0],
              ![0, 0, 2 * Real.pi],
              ![0, -(2 * Real.pi), 0]]

/-- Second binding of the substitute UB matrix (lines 125-127): the
all-positive diagonal form; this is the binding that takes effect. -/
noncomputable def UB_second : Matrix (Fin 3) (Fin 3) ℝ :=
  Matrix.of ![![2 * Real.pi, 0, 0],
              ![0, 2 * Real.pi, 0],
              ![0, 0, 2 * Real.pi]]

/-- `QxQyQzProjection.project` (lines 113-139): identical body to the HKL
projection except that the frame's `ub` entry is ignored and the local `UB`
is bound twice in sequence (the source assigns it twice); only the second
binding is live. -/
noncomputable def project {ι : Type} (df : PDataFrame ι) : ι → Fin 3 → ℝ :=
  let UB := UB_first
  let UB := UB_second
  let ki : Fin 3 → ℝ := ![1, 0, 0]
  let RUB_1 := (df.R * UB)⁻¹
  let RUB_1P := RUB_1 * df.P
  let kf : ι → Fin 3 → ℝ := fun p => normalizedVec (df.pixels p)
  let hkl_f : ι → Fin 3 → ℝ := fun p => RUB_1P.mulVec (kf p)
  let hkl_i : Fin 3 → ℝ := RUB_1.mulVec ki
  let hkl : ι → Fin 3 → ℝ := fun p => hkl_f p - hkl_i
  fun p i => hkl p i * df.k

end QxQyQzProjection

/-! ## Rotation matrix (sixs.py, M, lines 293-313) -/

/-- `M(theta, u)`: the Rodrigues rotation matrix, written entrywise exactly
as in the source. -/
noncomputable def M (theta : ℝ) (u : Fin 3 → ℝ) : Matrix (Fin 3) (Fin 3) ℝ :=
  let c := Real.cos theta
  let one_minus_c := 1 - c
  let s := Real.sin theta
  Matrix.of ![![c + u 0 ^ 2 * one_minus_c,
               u 0 * u 1 * one_minus_c - u 2 * s,
               u 0 * u 2 * one_minus_c + u 1 * s],
              ![u 0 * u 1 * one_minus_c + u 2 * s,
               c + u 1 ^ 2 * one_minus_c,
               u 1 * u 2 * one_minus_c - u 0 * s],
              ![u 0 * u 2 * one_minus_c - u 1 * s,
               u 1 * u 2 * one_minus_c + u 0 * s,
               c + u 2 ^ 2 * one_minus_c]]

/-! ## Error annotation in process_job (sixs.py, lines 357-401) -/

/-- `SIXS.dbg_scanno` (line 360): class attribute, `None`, and never
reassigned anywhere in sixs.py. -/
def SIXS_dbg_scanno : Option ℕ := none

/-- `SIXS.dbg_pointno` (line 361): class attribute, `None`, and never
reassigned anywhere in sixs.py. -/
def SIXS_dbg_pointno : Option ℕ := none

/-- Python `str.format` of the values interpolated at line 399: `None`
prints as "None", an int prints as its decimal digits. -/
def formatOpt : Option ℕ → String
  | none => "None"
  | some n => toString n

/-- Modelled from the spec: `errors.addmessage` (binoculars/errors.py, which
is not under src/) appends the context message to the exception's argument
tuple ("annotate the error with the scan identifier and point index"). -/
def addmessage (args : List String) (message : String) : List String :=
  args ++ [message]

/-- The context message built at line 399, with the two `{}` slots filled
from `SIXS.dbg_scanno` and `SIXS.dbg_pointno`. -/
def pointErrorMessage : String :=
  ", An error occured for scan " ++ formatOpt SIXS_dbg_scanno ++
  " at point " ++ formatOpt SIXS_dbg_pointno ++
  ". See above for more information"

/-- The per-point loop of `process_job` (line 395-396): process each point
index in order, stopping at the first failure.  The per-point work
(`process_image`) is passed in, since it reads external scan storage. -/
def processPoints {α : Type} (processImage : ℕ → Except (List String) α) :
    List ℕ → Except (List String) (List α)
  | [] => Except.ok []
  | i :: is =>
    match processImage i with
    | Except.ok v => (processPoints processImage is).map (fun vs => v :: vs)
    | Except.error args => Except.error args

/-- `SIXS.process_job` (lines 388-401): run the per-point loop over the
job's inclusive point range; on any exception, rebind its argument tuple to
`addmessage(exc.args, "... scan {dbg_scanno} at point {dbg_pointno} ...")`
and re-raise. -/
def process_job {α : Type} (processImage : ℕ → Except (List String) α) (job : Job) :
    Except (List String) (List α) :=
  match processPoints processImage (List.range' job.firstpoint (job.lastpoint + 1 - job.firstpoint)) with
  | Except.ok vs => Except.ok vs
  | Except.error args => Except.error (addmessage args pointErrorMessage)

/-- A per-point processor that fails at point 3 with argument tuple
("boom"), used as the failing input for claim C5. -/
def failingAt3 : ℕ → Except (List String) ℕ :=
  fun i => if i = 3 then Except.error ["boom"] else Except.ok i

/-! ## Mask loading (sixs.py, load_matrix, lines 556-568) -/

/-- Mask-loading failures.  The source raises `ValueError` for an unknown
extension and `IOError` for a missing file; the spec names these
`UnsupportedFormatError` and `NotFoundError`. -/
inductive LoadError where
  | unsupportedFormat (msg : String)
  | notFound (msg : String)
deriving DecidableEq

/-- What `load_matrix` loads on success: a boolean matrix read by
`numpy.loadtxt` (.txt) or `numpy.load` (.npy); the actual array contents
live outside src/, so only the provenance is recorded. -/
inductive MaskSource where
  | txt (filename : String)
  | npy (filename : String)
deriving DecidableEq

/-- Index of the last occurrence of `c`, counting from offset `i`. -/
def lastIndexOfAux (c : Char) : List Char → ℕ → Option ℕ → Option ℕ
  | [], _, acc => acc
  | d :: ds, i, acc => lastIndexOfAux c ds (i + 1) (if d = c then some i else acc)

/-- Index of the last occurrence of a character in a character list. -/
def lastIndexOf (cs : List Char) (c : Char) : Option ℕ :=
  lastIndexOfAux c cs 0 none

/-- The extension component of `os.path.splitext(filename)` (posixpath):
the suffix from the last dot, provided that dot lies inside the final path
component and is preceded there by at least one non-dot character. -/
def splitextExt (s : String) : String :=
  let cs := s.data
  match lastIndexOf cs '.' with
  | none => ""
  | some di =>
    let fi := match lastIndexOf cs '/' with
      | none => 0
      | some si => si + 1
    if fi ≤ di ∧ (((cs.drop fi).take (di - fi)).any fun ch => ch != '.') = true then
      String.mk (cs.drop di)
    else ""

/-- `load_matrix` (lines 556-568).  The file system is abstracted by the
`pathExists` predicate (`os.path.exists`); the numpy readers are external,
so success just records which reader would run. -/
def load_matrix (pathExists : String → Bool) (filename : Option String) :
    Except LoadError (Option MaskSource) :=
  match filename with
  | none => Except.ok none
  | some f =>
    if pathExists f then
      let ext := splitextExt f
      if ext = ".txt" then Except.ok (some (MaskSource.txt f))
      else if ext = ".npy" then Except.ok (some (MaskSource.npy f))
      else Except.error (LoadError.unsupportedFormat
        ("unknown extension " ++ ext ++ ", unable to load matrix!\n"))
    else Except.error (LoadError.notFound
      ("filename: " ++ f ++ " does not exist. Can not load matrix"))

/-! ## detrot parsing (sixs.py, SIXS.parse_config, lines 418-423) -/

/-- `ConfigError` from binoculars/errors.py: raised by other parts of
`parse_config`, never by the detrot fragment. -/
inductive ConfigError where
  | configError (msg : String)
deriving DecidableEq

/-- The detrot fragment of `SIXS.parse_config` (lines 418-423):
`detrot = config.pop('detrot', None)`, then if present try `float(detrot)`
and on `ValueError` silently set it back to `None`.  Python's `float` is
external; it is modelled by the `parseFloat` parameter (floats as ℚ).  The
`Except ConfigError` result type records that this fragment can signal a
configuration error but never does. -/
def parse_detrot (raw : Option String) (parseFloat : String → Option ℚ) :
    Except ConfigError (Option ℚ) :=
  match raw with
  | none => Except.ok none
  | some s =>
    match parseFloat s with
    | some v => Except.ok (some v)
    | none => Except.ok none

/-! ## Theorems -/

/-- Helper: closed form of the (spec-modelled) chunk slicer: `m` full slices
of size `T` followed by one remainder slice of size `r`, `1 ≤ r ≤ T`. -/
theorem chunkSlicerAux_closed (T : ℕ) (hT : 1 ≤ T) :
    ∀ fuel count start, 1 ≤ count → count ≤ fuel + 1 →
      ∃ m r, 1 ≤ r ∧ r ≤ T ∧ count = m * T + r ∧
        chunkSlicerAux fuel start count T =
          (List.range m).map (fun i => (start + i * T, start + i * T + T))
            ++ [(start + m * T, start + count)]
  | 0, count, start, h1, h2 => by
    refine ⟨0, count, h1, by omega, by omega, ?_⟩
    simp [chunkSlicerAux]
  | fuel + 1, count, start, h1, h2 => by
    by_cases hc : count ≤ T
    · refine ⟨0, count, h1, hc, by omega, ?_⟩
      simp [chunkSlicerAux, hc]
    · obtain ⟨m, r, hr1, hr2, hcnt, heq⟩ :=
        chunkSlicerAux_closed T hT fuel (count - T) (start + T) (by omega) (by omega)
      refine ⟨m + 1, r, hr1, hr2, ?_, ?_⟩
      · have hgoal : ∀ X, count - T = X + r → count = X + r + T := by
          intro X hX
          omega
        rw [Nat.add_mul, Nat.one_mul, Nat.add_right_comm]
        exact hgoal (m * T) hcnt
      · have hstep : chunkSlicerAux (fuel + 1) start count T =
            (start, start + T) :: chunkSlicerAux fuel (start + T) (count - T) T := by
          simp [chunkSlicerAux, hc]
        rw [hstep, heq, List.range_succ_eq_map, List.map_cons, List.map_map,
          List.cons_append]
        congr 1
        · simp
        congr 1
        · refine List.map_congr_left ?_
          intro i _
          simp only [Function.comp_apply, Prod.mk.injEq, Nat.succ_eq_add_one]
          constructor
          · rw [Nat.add_mul, Nat.one_mul]
            ring
          · rw [Nat.add_mul, Nat.one_mul]
            ring
        · have hfst : start + (m + 1) * T = start + T + m * T := by
            rw [Nat.add_mul, Nat.one_mul]
            ring
          have hsnd : start + T + (count - T) = start + count := by omega
          rw [hfst, hsnd]

/-- Helper: the ordering/contiguity/weight invariants of the chunk slices. -/
theorem chunkSlicerAux_invariants (T : ℕ) (hT : 1 ≤ T) :
    ∀ fuel count start, 1 ≤ count → count ≤ fuel + 1 →
      chunkSlicerAux fuel start count T ≠ [] ∧
      (chunkSlicerAux fuel start count T).head?.map Prod.fst = some start ∧
      (chunkSlicerAux fuel start count T).getLast?.map Prod.snd = some (start + count) ∧
      List.Forall (fun p => p.1 < p.2 ∧ p.2 - p.1 ≤ T) (chunkSlicerAux fuel start count T) ∧
      List.Chain' (fun p q => q.1 = p.2) (chunkSlicerAux fuel start count T) ∧
      ((chunkSlicerAux fuel start count T).map (fun p => p.2 - p.1)).sum = count
  | 0, count, start, h1, h2 => by
    refine ⟨by simp [chunkSlicerAux], by simp [chunkSlicerAux],
      by simp [chunkSlicerAux], ?_, ?_, ?_⟩
    · simp [chunkSlicerAux, List.Forall]
      omega
    · simp [chunkSlicerAux]
    · simp [chunkSlicerAux]
  | fuel + 1, count, start, h1, h2 => by
    by_cases hc : count ≤ T
    · refine ⟨by simp [chunkSlicerAux, hc], by simp [chunkSlicerAux, hc],
        by simp [chunkSlicerAux, hc], ?_, ?_, ?_⟩
      · simp [chunkSlicerAux, hc, List.Forall]
        omega
      · simp [chunkSlicerAux, hc]
      · simp [chunkSlicerAux, hc]
    · obtain ⟨hne, hhead, hlast, hforall, hchain, hsum⟩ :=
        chunkSlicerAux_invariants T hT fuel (count - T) (start + T) (by omega) (by omega)
      have hstep : chunkSlicerAux (fuel + 1) start count T =
          (start, start + T) :: chunkSlicerAux fuel (start + T) (count - T) T := by
        simp [chunkSlicerAux, hc]
      rw [hstep]
      rcases htl : chunkSlicerAux fuel (start + T) (count - T) T with _ | ⟨a, t⟩
      · exact absurd htl hne
      rw [htl] at hhead hlast hforall hchain hsum
      refine ⟨by simp, by simp, ?_, ?_, ?_, ?_⟩
      · rw [List.getLast?_cons_cons]
        rw [hlast]
        congr 1
        omega
      · rw [List.forall_cons]
        exact ⟨⟨by omega, by omega⟩, hforall⟩
      · rw [List.chain'_cons]
        have ha : a.1 = start + T := by
          simp at hhead
          exact hhead
        exact ⟨ha, hchain⟩
      · simp only [List.map_cons, List.sum_cons]
        simp only [List.map_cons, List.sum_cons] at hsum
        rw [hsum]
        omega

/-- Helper: transfer a chain relation along pointwise facts about the
elements. -/
theorem chain'_transfer {α : Type} {R S : α → α → Prop} {Q : α → Prop} :
    ∀ l : List α, List.Chain' R l → List.Forall Q l →
      (∀ a b, Q a → Q b → R a b → S a b) → List.Chain' S l
  | [], _, _, _ => List.chain'_nil
  | [_], _, _, _ => by simp
  | a :: b :: t, hc, hf, himp => by
    rw [List.chain'_cons] at hc
    rw [List.forall_cons] at hf
    have hfb : Q b := ((List.forall_cons _ _ _).mp hf.2).1
    exact List.chain'_cons.mpr
      ⟨himp a b hf.1 hfb hc.1, chain'_transfer (b :: t) hc.2 hf.2 himp⟩

/-- Helper: `getLast?` commutes with `map`. -/
theorem getLast?_map_local {α β : Type} (f : α → β) :
    ∀ l : List α, (l.map f).getLast? = l.getLast?.map f
  | [] => rfl
  | [_] => rfl
  | a :: b :: t => by
    rw [List.map_cons, List.map_cons, List.getLast?_cons_cons,
      List.getLast?_cons_cons, ← List.map_cons]
    exact getLast?_map_local f (b :: t)

/-- C2: for one scan of `N ≥ 1` points and target weight `T ≥ 1`: if
`N ≤ 1.4·T` a single job of weight `N` covers the whole range; otherwise the
jobs are `m` full jobs of weight `T` followed by one remainder job of
weight `r`, `1 ≤ r ≤ T`, `N = m·T + r`; and the three concrete examples of
the spec hold. -/
theorem generate_jobs_splitting (s N T : ℕ) (hN : 1 ≤ N) (hT : 1 ≤ T) :
    (5 * N ≤ 7 * T → generate_jobs s 0 N T = [⟨s, 0, N - 1, N⟩]) ∧
    (7 * T < 5 * N → ∃ m r, 1 ≤ r ∧ r ≤ T ∧ N = m * T + r ∧
      generate_jobs s 0 N T =
        (List.range m).map (fun i => ⟨s, i * T, i * T + T - 1, T⟩)
          ++ [⟨s, m * T, N - 1, r⟩]) ∧
    generate_jobs s 0 100 30 =
      [⟨s, 0, 29, 30⟩, ⟨s, 30, 59, 30⟩, ⟨s, 60, 89, 30⟩, ⟨s, 90, 99, 10⟩] ∧
    generate_jobs s 0 40 30 = [⟨s, 0, 39, 40⟩] ∧
    generate_jobs s 0 43 30 = [⟨s, 0, 29, 30⟩, ⟨s, 30, 42, 13⟩] := by
  refine ⟨?_, ?_, rfl, rfl, rfl⟩
  · intro h
    rw [generate_jobs, if_neg (by omega)]
    simp
  · intro h
    obtain ⟨m, r, hr1, hr2, hcnt, heq⟩ :=
      chunkSlicerAux_closed T hT N N 0 hN (by omega)
    refine ⟨m, r, hr1, hr2, hcnt, ?_⟩
    rw [generate_jobs, if_pos (by omega), chunk_slicer, heq, List.map_append,
      List.map_map]
    congr 1
    · refine List.map_congr_left ?_
      intro i _
      simp only [Function.comp_apply, Job.mk.injEq, Nat.zero_add]
      refine ⟨trivial, trivial, trivial, ?_⟩
      exact Nat.add_sub_cancel_left ..
    · simp only [List.map_cons, List.map_nil, List.cons.injEq, and_true,
        Job.mk.injEq, Nat.zero_add]
      refine ⟨trivial, trivial, trivial, ?_⟩
      rw [hcnt]
      exact Nat.add_sub_cancel_left ..

theorem generate_jobs_splitting_witness :
    1 ≤ 43 ∧ 1 ≤ 30 ∧
    generate_jobs 1 0 43 30 = [⟨1, 0, 29, 30⟩, ⟨1, 30, 42, 13⟩] :=
  ⟨by decide, by decide,
   (generate_jobs_splitting 1 43 30 (by decide) (by decide)).2.2.2.2⟩

/-- C3: for one scan of `N ≥ 1` points and target weight `T ≥ 1`, the emitted
jobs are nonempty, start at point 0, end at point `N-1`, each job's weight
is its inclusive range length, consecutive jobs are contiguous (strictly
ordered, non-overlapping, gap-free), and the weights sum to `N`. -/
theorem generate_jobs_partition_invariants (s N T : ℕ) (hN : 1 ≤ N) (hT : 1 ≤ T) :
    generate_jobs s 0 N T ≠ [] ∧
    (generate_jobs s 0 N T).head?.map Job.firstpoint = some 0 ∧
    (generate_jobs s 0 N T).getLast?.map Job.lastpoint = some (N - 1) ∧
    List.Forall
      (fun j => j.firstpoint ≤ j.lastpoint ∧ j.weight = j.lastpoint - j.firstpoint + 1)
      (generate_jobs s 0 N T) ∧
    List.Chain' (fun a b => b.firstpoint = a.lastpoint + 1) (generate_jobs s 0 N T) ∧
    ((generate_jobs s 0 N T).map Job.weight).sum = N := by
  by_cases hbig : 7 * T < 5 * N
  · obtain ⟨hne, hhead, hlast, hforall, hchain, hsum⟩ :=
      chunkSlicerAux_invariants T hT N N 0 hN (by omega)
    have hjobs : generate_jobs s 0 N T =
        (chunkSlicerAux N 0 N T).map fun p =>
          Job.mk s (0 + p.1) (0 + p.2 - 1) (p.2 - p.1) := by
      rw [generate_jobs, if_pos hbig, chunk_slicer]
    rw [hjobs]
    have hforall_mem := List.forall_iff_forall_mem.mp hforall
    refine ⟨?_, ?_, ?_, ?_, ?_, ?_⟩
    · simp only [ne_eq, List.map_eq_nil_iff]
      exact hne
    · rcases hL : chunkSlicerAux N 0 N T with _ | ⟨a, t⟩
      · exact absurd hL hne
      rw [hL] at hhead
      simp at hhead
      simp [hhead]
    · rw [getLast?_map_local]
      rcases hL : (chunkSlicerAux N 0 N T).getLast? with _ | a
      · rw [hL] at hlast
        simp at hlast
      rw [hL] at hlast
      simp at hlast
      have ha12 : a.1 < a.2 := by
        have hmem : a ∈ chunkSlicerAux N 0 N T := by
          obtain ⟨h9, ha⟩ := List.mem_getLast?_eq_getLast (Option.mem_def.mpr hL)
          rw [ha]
          exact List.getLast_mem h9
        exact (hforall_mem a hmem).1
      simp
      omega
    · rw [List.forall_iff_forall_mem]
      intro j hj
      obtain ⟨p, hp, rfl⟩ := List.mem_map.mp hj
      have hpq := hforall_mem p hp
      constructor
      · simp only
        omega
      · simp only
        omega
    · rw [List.chain'_map]
      refine chain'_transfer _ hchain hforall ?_
      intro p q hp _ hr
      simp only
      omega
    · rw [List.map_map]
      have hw : (Job.weight ∘ fun p : ℕ × ℕ =>
          Job.mk s (0 + p.1) (0 + p.2 - 1) (p.2 - p.1)) = fun p => p.2 - p.1 := rfl
      rw [hw]
      exact hsum
  · rw [generate_jobs, if_neg hbig]
    refine ⟨by simp, by simp, by simp, ?_, by simp, by simp⟩
    simp only [List.Forall]
    omega

theorem generate_jobs_partition_invariants_witness :
    1 ≤ 100 ∧ 1 ≤ 30 ∧
    (generate_jobs 2 0 100 30).head?.map Job.firstpoint = some 0 ∧
    (generate_jobs 2 0 100 30).getLast?.map Job.lastpoint = some 99 ∧
    ((generate_jobs 2 0 100 30).map Job.weight).sum = 100 :=
  ⟨by decide, by decide,
   (generate_jobs_partition_invariants 2 100 30 (by decide) (by decide)).2.1,
   (generate_jobs_partition_invariants 2 100 30 (by decide) (by decide)).2.2.1,
   (generate_jobs_partition_invariants 2 100 30 (by decide) (by decide)).2.2.2.2.2⟩

/-- C1 (counterexample): the HKL projection's output is NOT in general the
claimed formula "apply inverse(R·UB) to the normalized outgoing directions
and to (1,0,0), subtract, scale by k": with R = UB = I, k = 1, a single
pixel at (1,0,0) and P the 90° rotation about z, the code yields H = -1
while the claimed formula yields H = 0 (the claim omits the detector
rotation P, which the code applies to the outgoing directions). -/
theorem hkl_project_spec_counterexample :
    HKLProjection.project dfC1 ≠ hklProjectSpec dfC1 := by
  intro hEq
  have hnv : normalizedVec ![(1 : ℝ), 0, 0] = ![1, 0, 0] := by
    have hn : norm2 ![(1 : ℝ), 0, 0] = 1 := by
      simp [norm2]
    funext i
    fin_cases i <;> simp [normalizedVec, normGuard, hn]
  have h00 := congrFun (congrFun hEq 0) 0
  have hL : HKLProjection.project dfC1 0 0 = -1 := by
    simp [HKLProjection.project, dfC1, hnv, inv_one, Matrix.one_mulVec,
      Matrix.mulVec, Matrix.dotProduct, Fin.sum_univ_three]
  have hR : hklProjectSpec dfC1 0 0 = 0 := by
    simp [hklProjectSpec, dfC1, hnv, inv_one, Matrix.one_mulVec]
  rw [hL, hR] at h00
  norm_num at h00

/-- C1 (amended): the HKL projection's output equals the spec formula with
the detector rotation restored: `inverse(R·UB)·P` applied to the normalized
outgoing pixel directions, `inverse(R·UB)` applied to the incident
direction (1,0,0), subtracted and scaled by k. -/
theorem hkl_project_matches_amended_spec {ι : Type} (df : PDataFrame ι) :
    HKLProjection.project df = hklProjectSpecAmended df := by
  funext p i
  simp only [HKLProjection.project, hklProjectSpecAmended]
  rw [Matrix.mulVec_mulVec]
  exact mul_comm _ _

/-- C4: the Qx/Qy/Qz projection equals the HKL projection with the frame's
UB matrix replaced by the fixed diagonal matrix diag(2π, 2π, 2π) — the
sample's UB is ignored — and of the two sequential bindings of the
substitute matrix only the second, all-positive diagonal one takes effect
(the two bindings differ). -/
theorem qxqyqz_equals_hkl_with_fixed_ub {ι : Type} (df : PDataFrame ι) :
    QxQyQzProjection.project df =
      HKLProjection.project { df with ub := QxQyQzProjection.UB_second } ∧
    QxQyQzProjection.UB_second =
      Matrix.diagonal ![2 * Real.pi, 2 * Real.pi, 2 * Real.pi] ∧
    QxQyQzProjection.UB_first ≠ QxQyQzProjection.UB_second := by
  refine ⟨rfl, ?_, ?_⟩
  · ext i j
    fin_cases i <;> fin_cases j <;>
      simp [QxQyQzProjection.UB_second, Matrix.diagonal, Matrix.vecHead, Matrix.vecTail]
  · intro hEq
    have h21 : QxQyQzProjection.UB_first 2 1 = QxQyQzProjection.UB_second 2 1 := by
      rw [hEq]
    simp [QxQyQzProjection.UB_first, QxQyQzProjection.UB_second] at h21
    exact Real.pi_ne_zero (by linarith)

/-- C7: for a unit axis `u`, `M(0, u)` is the identity matrix, and for every
angle `θ` the rotation matrix `M(θ, u)` is orthogonal: `M·Mᵗ = I`. -/
theorem M_identity_and_orthogonal (u : Fin 3 → ℝ)
    (h : u 0 ^ 2 + u 1 ^ 2 + u 2 ^ 2 = 1) (θ : ℝ) :
    M 0 u = 1 ∧ M θ u * (M θ u).transpose = 1 := by
  have hs : Real.sin θ ^ 2 + Real.cos θ ^ 2 = 1 := Real.sin_sq_add_cos_sq θ
  constructor
  · ext i j
    fin_cases i <;> fin_cases j <;>
      simp [M, Matrix.one_apply, Matrix.vecHead, Matrix.vecTail]
  · ext i j
    rw [Matrix.mul_apply]
    simp only [Matrix.transpose_apply]
    rw [Fin.sum_univ_three]
    fin_cases i <;> fin_cases j
    · simp [M, Matrix.one_apply, Matrix.vecHead, Matrix.vecTail]
      linear_combination (1 - u 0 * u 0) * hs +
        (Real.sin θ ^ 2 + (1 - Real.cos θ) ^ 2 * (u 0 * u 0)) * h
    · simp [M, Matrix.one_apply, Matrix.vecHead, Matrix.vecTail]
      linear_combination (-(u 0 * u 1)) * hs +
        ((1 - Real.cos θ) ^ 2 * (u 0 * u 1)) * h
    · simp [M, Matrix.one_apply, Matrix.vecHead, Matrix.vecTail]
      linear_combination (-(u 0 * u 2)) * hs +
        ((1 - Real.cos θ) ^ 2 * (u 0 * u 2)) * h
    · simp [M, Matrix.one_apply, Matrix.vecHead, Matrix.vecTail]
      linear_combination (-(u 0 * u 1)) * hs +
        ((1 - Real.cos θ) ^ 2 * (u 0 * u 1)) * h
    · simp [M, Matrix.one_apply, Matrix.vecHead, Matrix.vecTail]
      linear_combination (1 - u 1 * u 1) * hs +
        (Real.sin θ ^ 2 + (1 - Real.cos θ) ^ 2 * (u 1 * u 1)) * h
    · simp [M, Matrix.one_apply, Matrix.vecHead, Matrix.vecTail]
      linear_combination (-(u 1 * u 2)) * hs +
        ((1 - Real.cos θ) ^ 2 * (u 1 * u 2)) * h
    · simp [M, Matrix.one_apply, Matrix.vecHead, Matrix.vecTail]
      linear_combination (-(u 0 * u 2)) * hs +
        ((1 - Real.cos θ) ^ 2 * (u 0 * u 2)) * h
    · simp [M, Matrix.one_apply, Matrix.vecHead, Matrix.vecTail]
      linear_combination (-(u 1 * u 2)) * hs +
        ((1 - Real.cos θ) ^ 2 * (u 1 * u 2)) * h
    · simp [M, Matrix.one_apply, Matrix.vecHead, Matrix.vecTail]
      linear_combination (1 - u 2 * u 2) * hs +
        (Real.sin θ ^ 2 + (1 - Real.cos θ) ^ 2 * (u 2 * u 2)) * h

theorem M_identity_and_orthogonal_witness :
    ((![1, 0, 0] : Fin 3 → ℝ) 0 ^ 2 + (![1, 0, 0] : Fin 3 → ℝ) 1 ^ 2 +
        (![1, 0, 0] : Fin 3 → ℝ) 2 ^ 2 = 1) ∧
    (M 0 ![1, 0, 0] = 1 ∧ M 0 ![1, 0, 0] * (M 0 ![1, 0, 0]).transpose = 1) :=
  ⟨by norm_num, M_identity_and_orthogonal ![1, 0, 0] (by norm_num) 0⟩

/-- C10: if the optional detrot value is present but cannot be parsed as a
float, configuration parsing silently yields `None` for detrot instead of
raising a configuration error. -/
theorem parse_detrot_silent_on_bad_float (parseFloat : String → Option ℚ)
    (s : String) (h : parseFloat s = none) :
    parse_detrot (some s) parseFloat = Except.ok none := by
  simp [parse_detrot, h]

theorem parse_detrot_silent_on_bad_float_witness :
    (fun _ : String => (none : Option ℚ)) "garbage" = none ∧
    parse_detrot (some "garbage") (fun _ => none) = Except.ok none :=
  ⟨rfl, parse_detrot_silent_on_bad_float (fun _ => none) "garbage" rfl⟩

/-- C9: a `None` mask filename loads no mask and raises no error; an
existing file with an extension other than .txt/.npy fails with
`UnsupportedFormatError`; a missing file fails with `NotFoundError`. -/
theorem load_matrix_error_behaviour (pathExists : String → Bool) (f : String) :
    load_matrix pathExists none = Except.ok none ∧
    (pathExists f = true → splitextExt f ≠ ".txt" → splitextExt f ≠ ".npy" →
      load_matrix pathExists (some f) = Except.error (LoadError.unsupportedFormat
        ("unknown extension " ++ splitextExt f ++ ", unable to load matrix!\n"))) ∧
    (pathExists f = false →
      load_matrix pathExists (some f) = Except.error (LoadError.notFound
        ("filename: " ++ f ++ " does not exist. Can not load matrix"))) := by
  refine ⟨rfl, ?_, ?_⟩
  · intro hex ht hn
    simp [load_matrix, hex, ht, hn]
  · intro hex
    simp [load_matrix, hex]

theorem load_matrix_error_behaviour_witness :
    load_matrix (fun _ => true) (some "mask.dat") = Except.error
      (LoadError.unsupportedFormat
        ("unknown extension " ++ splitextExt "mask.dat" ++ ", unable to load matrix!\n")) ∧
    load_matrix (fun _ => false) (some "mask.txt") = Except.error
      (LoadError.notFound
        ("filename: " ++ "mask.txt" ++ " does not exist. Can not load matrix")) :=
  ⟨(load_matrix_error_behaviour (fun _ => true) "mask.dat").2.1 rfl
      (by decide) (by decide),
   (load_matrix_error_behaviour (fun _ => false) "mask.txt").2.2 rfl⟩

/-- C6: `get_axes` succeeds on the two supported diffractometer names,
returning the resolved sample and detector chains, and fails with the
unsupported-geometry error on every other name. -/
theorem get_axes_supported_and_unsupported (name : String) :
    get_axes ZAXIS = Except.ok
      { sample := ["mu", "omega"], detector := ["mu", "delta", "gamma"],
        graph := [("mu", "omega"), ("mu", "delta"), ("delta", "gamma")] } ∧
    get_axes SOLEIL_SIXS_MED1_2 = Except.ok
      { sample := ["pitch", "mu"], detector := ["pitch", "gamma", "delta"],
        graph := [("pitch", "mu"), ("pitch", "gamma"), ("gamma", "delta")] } ∧
    (name ≠ ZAXIS → name ≠ SOLEIL_SIXS_MED1_2 →
      get_axes name = Except.error (SixsError.unsupportedGeometry
        ("not yet supported diffractometer type:" ++ name))) := by
  refine ⟨rfl, rfl, ?_⟩
  intro h1 h2
  simp [get_axes, h1, h2]

theorem get_axes_supported_and_unsupported_witness :
    get_axes "E4CV" = Except.error (SixsError.unsupportedGeometry
      ("not yet supported diffractometer type:" ++ "E4CV")) :=
  (get_axes_supported_and_unsupported "E4CV").2.2 (by decide) (by decide)

/-- C5 (code bug witness): a failure at point 3 of the job for scan 7 is
annotated with "scan None at point None" — `SIXS.dbg_scanno` and
`SIXS.dbg_pointno` are never assigned in sixs.py — not with the failing
scan identifier 7 and point index 3 that the claim (and the message's own
wording) promise; the job stops at the failing point. -/
theorem process_job_annotates_with_none :
    process_job failingAt3 { scan := 7, firstpoint := 0, lastpoint := 5, weight := 6 } =
      Except.error ["boom",
        ", An error occured for scan None at point None. See above for more information"] := rfl

/-- C8: the guarded per-column norm is never zero, so the division in
`normalized` is always well defined (no NaN/∞, no exception), and a column
of zero length is normalized to the zero vector. -/
theorem normalized_never_divides_by_zero (v : Fin 3 → ℝ) :
    normGuard v ≠ 0 ∧ (norm2 v = 0 → normalizedVec v = fun _ => 0) := by
  constructor
  · by_cases h : norm2 v = 0
    · simp [normGuard, h]
    · simp [normGuard, h]
  · intro h
    have hsum : v 0 ^ 2 + v 1 ^ 2 + v 2 ^ 2 ≤ 0 := by
      have := h
      rw [norm2, Real.sqrt_eq_zero'] at this
      exact this
    have h0 : v 0 = 0 := by
      have : v 0 ^ 2 = 0 :=
        le_antisymm (by nlinarith [sq_nonneg (v 1), sq_nonneg (v 2)]) (sq_nonneg _)
      exact sq_eq_zero_iff.mp this
    have h1 : v 1 = 0 := by
      have : v 1 ^ 2 = 0 :=
        le_antisymm (by nlinarith [sq_nonneg (v 0), sq_nonneg (v 2)]) (sq_nonneg _)
      exact sq_eq_zero_iff.mp this
    have h2 : v 2 = 0 := by
      have : v 2 ^ 2 = 0 :=
        le_antisymm (by nlinarith [sq_nonneg (v 0), sq_nonneg (v 1)]) (sq_nonneg _)
      exact sq_eq_zero_iff.mp this
    funext i
    fin_cases i <;> simp [normalizedVec, normGuard, h, h0, h1, h2]

theorem normalized_never_divides_by_zero_witness :
    normGuard ![0, 0, 0] ≠ 0 ∧ normalizedVec ![0, 0, 0] = fun _ => 0 :=
  ⟨(normalized_never_divides_by_zero ![0, 0, 0]).1,
   (normalized_never_divides_by_zero ![0, 0, 0]).2 (by simp [norm2])⟩

end Binoculars
